import Mathlib

/-!
Shallow embedding of the chunked-transfer pipeline and the fuzzy transcript
matcher of firefly-vcut, translated from `src/firefly_vcut/modal/stream.py`,
`src/firefly_vcut/retry.py` and `src/firefly_vcut/fuzz.py`, together with
proofs about the embedded code.
-/

namespace FireflyVcut

/-! ## Chunk planning: `chunk_audio` (stream.py:298-314) -/

/-- Byte range as produced by `chunk_audio`: the source's tuple `(i, j)`,
where an end of `-1` encodes an open-ended range (`bytes=start-`). -/
abbrev ByteRange := Int × Int

/-- Loop of `chunk_audio` (stream.py:309-313): `for i in range(0,
content_length, chunk_size + 1)` viewed as `while i < content_length: emit;
i += chunk_size + 1`. The third argument is fuel bounding the number of
remaining iterations; the wrapper `chunk_audio` passes `content_length`,
which always suffices because the step `chunk_size + 1` is at least 1. -/
def chunkAudioLoop (L c : Nat) : Nat → Nat → List ByteRange
  | 0, _ => []
  | fuel + 1, i =>
    if i < L then
      (if L ≤ i + c then ((i : Int), (-1 : Int))
       else ((i : Int), ((i + c : Nat) : Int))) :: chunkAudioLoop L c fuel (i + c + 1)
    else []

/-- Model of `chunk_audio(content_length, chunk_size)` (stream.py:298-314):
`chunk_size = None` yields the single open range `(0, -1)`; otherwise the
stepping loop above, starting at offset 0. -/
def chunk_audio (content_length : Nat) (chunk_size : Option Nat) : List ByteRange :=
  match chunk_size with
  | none => [((0 : Int), (-1 : Int))]
  | some c => chunkAudioLoop content_length c content_length 0

/-- Set of byte offsets a range covers: a closed range `(s, e)` covers
`s..e` inclusive; an open range `(s, -1)` covers `s..L-1`, where `L` is the
total body length. -/
def coversByte (L : Nat) (r : ByteRange) (x : Nat) : Prop :=
  r.1 ≤ (x : Int) ∧ (x : Int) ≤ (if r.2 = -1 then (L : Int) - 1 else r.2)

/-! ## Retry with exponential backoff (retry.py) -/

/-- Model of `RetryConfig` (retry.py:9-24); durations are modelled as exact
rationals. -/
structure RetryConfig where
  maxRetries : Nat
  initialBackoff : ℚ
  exponent : ℚ
  maxBackoff : Option ℚ
  retryOnStatusCodes : List Int

/-- Backoff update `min(backoff * config.exponent, config.max_backoff or
float('inf'))` (retry.py:67, 80, 120, 133). Python's `or` treats both `None`
and `0.0` as falsy, so a max backoff of zero is replaced by infinity, and
`min` with infinity is the identity. -/
def nextBackoff (cfg : RetryConfig) (b : ℚ) : ℚ :=
  match cfg.maxBackoff with
  | none => b * cfg.exponent
  | some m => if m = 0 then b * cfg.exponent else min (b * cfg.exponent) m

/-- Result of a modelled retry loop: the returned value or finally raised
fault, the total number of invocations of the operation, and the list of
backoff durations slept, in order. The raised fault is `Option`-wrapped
because `raise last_exception` at retry.py:85 would re-raise `None` if the
loop could ever fall through; the proofs show that case is unreachable. -/
structure RetryResult (E α : Type) where
  result : Except (Option E) α
  calls : Nat
  sleeps : List ℚ

/-- Model of `should_retry_response(response, config)` (retry.py:26-28) and
its aiohttp counterpart `should_retry_aiohttp_response` (retry.py:30-32),
generalized over the value type: `respStatus` abstracts the
`isinstance(result, Response)` test plus status-code read — it returns the
status code when the value is a response object and `none` otherwise — and a
value triggers a response-retry iff its status code is in
`config.retry_on_status_codes`. -/
def should_retry_response {α : Type} (respStatus : α → Option Int) (v : α)
    (cfg : RetryConfig) : Bool :=
  match respStatus v with
  | some s => cfg.retryOnStatusCodes.contains s
  | none => false

/-- Body of the retry loops of `retry_with_backoff` (retry.py:58-85) and
`retry_with_backoff_async` (retry.py:111-138), which are textually identical
up to sync/async plumbing. `left` counts the iterations the `for attempt in
range(config.max_retries + 1)` loop still has; `idx` is the current value of
`attempt` (the wrappers start with `left = maxRetries + 1` and `idx = 0`);
`op idx` is the outcome of the `idx`-th invocation of `func`. -/
def retryFrom {E α : Type} (cfg : RetryConfig) (respStatus : α → Option Int)
    (op : Nat → Except E α) : Nat → Nat → ℚ → Option E → RetryResult E α
  | 0, _, _, last => ⟨.error last, 0, []⟩
  | left + 1, idx, b, last =>
    match op idx with
    | .ok v =>
      if should_retry_response respStatus v cfg then
        if idx < cfg.maxRetries then
          let r := retryFrom cfg respStatus op left (idx + 1) (nextBackoff cfg b) last
          ⟨r.result, r.calls + 1, b :: r.sleeps⟩
        else ⟨.ok v, 1, []⟩
      else ⟨.ok v, 1, []⟩
    | .error e =>
      if idx < cfg.maxRetries then
        let r := retryFrom cfg respStatus op left (idx + 1) (nextBackoff cfg b) (some e)
        ⟨r.result, r.calls + 1, b :: r.sleeps⟩
      else ⟨.error (some e), 1, []⟩

/-- Model of `retry_with_backoff(func, config)` (retry.py:34-85). -/
def retry_with_backoff {E α : Type} (cfg : RetryConfig) (respStatus : α → Option Int)
    (op : Nat → Except E α) : RetryResult E α :=
  retryFrom cfg respStatus op (cfg.maxRetries + 1) 0 cfg.initialBackoff none

/-- Model of `retry_with_backoff_async(func, config)` (retry.py:87-138); the
async variant runs the same algorithm, with `asyncio.sleep` in place of
`time.sleep` and the `aiohttp.ClientResponse` status test in place of the
`requests.Response` one (both abstracted by `respStatus`). -/
def retry_with_backoff_async {E α : Type} (cfg : RetryConfig) (respStatus : α → Option Int)
    (op : Nat → Except E α) : RetryResult E α :=
  retryFrom cfg respStatus op (cfg.maxRetries + 1) 0 cfg.initialBackoff none

/-! ## Fuzzy transcript search (fuzz.py) -/

/-- Transcript segment, a dict `{"start": <float seconds>, "text": <str>}`;
the start time is modelled as an exact rational. -/
structure Segment where
  start : ℚ
  text : String
deriving DecidableEq

/-- Transcript: a list of pages, each an ordered list of segments. -/
abbrev Transcript := List (List Segment)

/-- Newline join `"\n".join(sg["text"] for sg in w)` of a window's segment
texts (fuzz.py:25, 35). -/
def windowText (w : List Segment) : String :=
  String.intercalate "\n" (w.map (fun sg => sg.text))

/-- Number of lines of the query, `len(text.split("\n"))` (fuzz.py:21). For
the single-character separator `"\n"`, Python's `split` returns exactly one
more part than there are newline characters in the text, which is how the
count is expressed here. -/
def numSegmentInText (text : String) : Nat := text.toList.count '\n' + 1

/-- Candidate windows of one page (fuzz.py:23-41): if the page has fewer
segments than the query has lines, the whole page is the single candidate;
otherwise every window of exactly `n` consecutive segments
(`segment[i : i + n]`), in sliding order `i = 0 .. len - n`. -/
def pageCandidates (n : Nat) (page : List Segment) : List (List Segment) :=
  if page.length < n then [page]
  else (List.range (page.length - n + 1)).map (fun i => (page.drop i).take n)

/-- All candidate windows of a transcript, tagged with their 0-based page
index, in the order the nested loops of `search_text_in_transcript` visit
them. -/
def transcriptCandidates (n : Nat) (t : Transcript) : List (Nat × List Segment) :=
  t.enum.flatMap (fun pe => (pageCandidates n pe.2).map (fun w => (pe.1, w)))

/-- Running-maximum state of `search_text_in_transcript`: the values of
`max_score`, `max_page`, `max_segment_start` and `max_segment_text` once a
first candidate has been selected (`max_page is not None`). -/
structure MatchState where
  score : ℚ
  page : Nat
  start : ℚ
  text : String
deriving DecidableEq

/-- Faults of the matcher model: `typeError` is Python's `TypeError` from
`max_page + 1` when `max_page` is still `None` (fuzz.py:43); `indexError` is
the `segment[0]` lookup on an empty window (fuzz.py:31). -/
inductive FuzzErr where
  | typeError
  | indexError
deriving DecidableEq

/-- Selection of a new best candidate (fuzz.py:28-31, 38-41): record score,
page and joined text, and read the start time of the window's first segment —
which faults on an empty window. -/
def selectCandidate (ratio : String → String → ℚ) (query : String)
    (c : Nat × List Segment) : Except FuzzErr MatchState :=
  match c.2 with
  | [] => .error .indexError
  | sg :: _ => .ok ⟨ratio query (windowText c.2), c.1, sg.start, windowText c.2⟩

/-- One step of the running-maximum update, for one candidate window: the
guard is `max_page is None or score > max_score` (fuzz.py:27, 37). -/
def stepCandidate (ratio : String → String → ℚ) (query : String)
    (st : Option MatchState) (c : Nat × List Segment) : Except FuzzErr (Option MatchState) :=
  match st with
  | none => (selectCandidate ratio query c).map some
  | some m =>
    if m.score < ratio query (windowText c.2) then (selectCandidate ratio query c).map some
    else .ok (some m)

/-- Model of `search_text_in_transcript(transcript, text)` (fuzz.py:3-43). The
similarity metric `rapidfuzz.fuzz.ratio` is an external library call and is
modelled by the oracle `ratio`. Returns the tuple `(max_segment_start,
max_page + 1, max_score, max_segment_text)` of fuzz.py:43; a `.error` result
models an uncaught Python exception. -/
def search_text_in_transcript (ratio : String → String → ℚ)
    (transcript : Transcript) (text : String) : Except FuzzErr (ℚ × Nat × ℚ × String) :=
  match (transcriptCandidates (numSegmentInText text) transcript).foldlM
      (stepCandidate ratio text) none with
  | .error e => .error e
  | .ok none => .error .typeError
  | .ok (some m) => .ok (m.start, m.page + 1, m.score, m.text)

/-- Proof-internal left fold returning the first-encountered maximum of
`b :: cs` under the score function `f`; used only to characterise the
running maximum of the matcher, not a translation of source code. -/
def pickBestFrom (f : Nat × List Segment → ℚ) (b : Nat × List Segment) :
    List (Nat × List Segment) → Nat × List Segment
  | [] => b
  | c :: cs => pickBestFrom f (if f b < f c then c else b) cs

/-- Proof-internal: the `MatchState` produced by selecting candidate `c` (the
default segment is never read on the non-empty windows the proofs consider). -/
def stateOf (ratio : String → String → ℚ) (query : String)
    (c : Nat × List Segment) : MatchState :=
  ⟨ratio query (windowText c.2), c.1, (c.2.headD ⟨0, ""⟩).start, windowText c.2⟩

/-! ## Chunk fetch inside `upload_single_chunk` (stream.py:193-223) -/

/-- Abstraction of one HTTP response to the ranged chunk fetch inside
`upload_single_chunk`: `ok` and `status` mirror `resp.ok` and `resp.status`;
`contentLength` is the integer value of the `Content-Length` header when the
header is present (`none` when absent — a present header is a non-empty
decimal string, hence truthy in Python, so its truthiness test is modelled by
presence); `body` is an opaque identifier for the bytes `resp.read()`
returns. -/
structure ChunkResp where
  ok : Bool
  status : Int
  contentLength : Option Int
  body : Nat

/-- Faults raised inside `_make_async_request` (stream.py:196-214). -/
inductive FetchErr where
  | badStatus (status : Int)
  | contentLengthMismatch (expected got : Int)
deriving DecidableEq

/-- Model of `_make_async_request` for one chunk (stream.py:193-219): fail on
a non-ok status; compute `expected_size = chunk[1] - chunk[0] + 1` when the
range is closed (`chunk[1] != -1`), `None` otherwise; when the header value
and `expected_size` are both truthy (Python's `and`, where the integer
`expected_size` is truthy iff nonzero), compare them and raise on mismatch;
otherwise return the body. -/
def make_async_request (chunk : ByteRange) (resp : ChunkResp) : Except FetchErr Nat :=
  if resp.ok = false then .error (.badStatus resp.status)
  else
    let expectedSize : Option Int :=
      if chunk.2 ≠ -1 then some (chunk.2 - chunk.1 + 1) else none
    match resp.contentLength, expectedSize with
    | some cl, some exp =>
      if exp ≠ 0 then
        if cl ≠ exp then .error (.contentLengthMismatch exp cl) else .ok resp.body
      else .ok resp.body
    | _, _ => .ok resp.body

/-- The chunk fetch as wrapped by `retry_with_backoff_async` at
stream.py:221-223: attempt `i` runs `_make_async_request` against the `i`-th
response of the (abstracted) upstream. The value returned by a successful
attempt is the fetched bytes, never an `aiohttp.ClientResponse`, so the
response-status classifier is constantly `none`. -/
def fetchChunkWithRetry (cfg : RetryConfig) (chunk : ByteRange)
    (resps : Nat → ChunkResp) : RetryResult FetchErr Nat :=
  retry_with_backoff_async cfg (fun _ => none) (fun i => make_async_request chunk (resps i))

/-- Whether a fetch outcome is the Content-Length-mismatch fault. -/
def isMismatch (r : Except FetchErr Nat) : Prop :=
  ∃ a b, r = Except.error (.contentLengthMismatch a b)

/-! ## Per-page behaviour of `stream_recording` (stream.py:107-276) -/

/-- Calls `stream_recording` makes against external services for one page:
`head_object` (inside `object_exists`, stream.py:290), the multipart-upload
calls `create_multipart_upload`, `upload_part`, `complete_multipart_upload`,
`abort_multipart_upload`, and the ranged chunk fetch (`fetchChunk`). -/
inductive StoreOp where
  | headObject
  | createMultipart
  | fetchChunk
  | uploadPart
  | completeMultipart
  | abortMultipart
deriving DecidableEq

/-- Oracle for the external world `stream_recording` sees for one page:
`keyExists` is the `object_exists` answer (stream.py:111); `streamUrlOk` is
`stream_url_response["code"] == 0` (stream.py:124); `headStatus` is the
status code of the HEAD request for the content length, after retries
(stream.py:147); `contentLength` the parsed `Content-Length` (stream.py:152);
`attemptFails i` tells whether the multipart attempt with the `i`-th
chunk-size candidate fails after its upload was created (the `except` branch
of stream.py:262 is taken); `failedParts i` is how many chunk fetch/upload
pairs completed before that failure. -/
structure PageOracle where
  keyExists : Bool
  streamUrlOk : Bool
  headStatus : Int
  contentLength : Nat
  attemptFails : Nat → Bool
  failedParts : Nat → Nat

/-- The chunk-size degradation schedule
`(20 * 1024 * 1024, 50 * 1024 * 1024, None)` of stream.py:155. -/
def chunkSizeSchedule : List (Option Nat) :=
  [some (20 * 1024 * 1024), some (50 * 1024 * 1024), none]

/-- External calls of one successful multipart attempt (stream.py:165-261):
create the upload, fetch and upload one part per planned chunk, then issue
the completion call. -/
def successOps (L : Nat) (cs : Option Nat) : List StoreOp :=
  StoreOp.createMultipart ::
    ((chunk_audio L cs).flatMap (fun _ => [StoreOp.fetchChunk, StoreOp.uploadPart])
      ++ [StoreOp.completeMultipart])

/-- Chunk fetch/upload calls of the `parts` worker pairs that completed
before a failing attempt's exception arrived (stream.py:244-247). -/
def partUploadOps (parts : Nat) : List StoreOp :=
  (List.range parts).flatMap (fun _ => [StoreOp.fetchChunk, StoreOp.uploadPart])

/-- Faults `stream_recording` raises for one page: the two pre-loop faults of
stream.py:124-150, and `attributeError` — the `AttributeError` the `except`
handler itself raises at stream.py:267, where `task.cancel()` is called on
the elements of `tasks`, which are raw coroutine objects
(`upload_single_chunk(...)` at stream.py:244 is an `async def` call never
wrapped in a Task) and have no `cancel` method. -/
inductive PageErr where
  | streamUrlFailed
  | headFailed
  | attributeError
deriving DecidableEq

/-- The `for chunk_size in (...)` loop of stream.py:155-274. On a successful
attempt the loop breaks. On a failing attempt the `except` branch runs
(stream.py:262-274): `if tasks:` — `tasks` holds one coroutine per planned
chunk, so it is non-empty exactly when the plan is non-empty — and when it is
non-empty, `task.cancel()` raises `AttributeError` on the first coroutine
(they have no `cancel` method), which escapes the handler before the abort
call and propagates out of the loop; only when the plan is empty is the
cancellation loop skipped, the abort issued (stream.py:270-273) and the next
candidate tried after the sleep. When the schedule is exhausted the loop
simply ends — no fault is raised by the loop itself. Returns the loop's
outcome (normal termination or escaped exception) with the external calls
made. `attemptFails i` covers failures arriving after
`create_multipart_upload` succeeded (from the gathered workers or the
completion call), so `upload_id` and `tasks` are bound. -/
def attemptLoop (o : PageOracle) : List (Option Nat) → Nat → Except PageErr Unit × List StoreOp
  | [], _ => (.ok (), [])
  | cs :: rest, i =>
    if o.attemptFails i then
      if chunk_audio o.contentLength cs = [] then
        let r := attemptLoop o rest (i + 1)
        (r.1, [StoreOp.createMultipart, StoreOp.abortMultipart] ++ r.2)
      else
        (.error .attributeError,
          StoreOp.createMultipart :: partUploadOps (o.failedParts i))
    else (.ok (), successOps o.contentLength cs)

/-- Per-page behaviour of `stream_recording` (stream.py:107-276): check object
existence (reusing the key and skipping everything else when it exists),
resolve the stream URL, read the content length, run the chunk-size loop. If
the loop terminates without an escaped exception — a successful break, or the
schedule exhausted — the destination key is appended unconditionally
(stream.py:276: no fault is raised after the loop); an exception escaping the
loop propagates to the caller and the key is not appended. Returns the
outcome for the page (the key it reports, or the fault raised) together with
the external calls made. -/
def streamPage (o : PageOracle) (key : String) : Except PageErr String × List StoreOp :=
  if o.keyExists then (.ok key, [StoreOp.headObject])
  else if o.streamUrlOk = false then (.error .streamUrlFailed, [StoreOp.headObject])
  else if o.headStatus ≠ 200 then (.error .headFailed, [StoreOp.headObject])
  else
    match attemptLoop o chunkSizeSchedule 0 with
    | (.ok _, t) => (.ok key, StoreOp.headObject :: t)
    | (.error e, t) => (.error e, StoreOp.headObject :: t)

/-! ## Lemmas about `chunk_audio` -/

theorem chunkAudioLoop_nil (L c fuel i : Nat) (h : L ≤ i) :
    chunkAudioLoop L c fuel i = [] := by
  cases fuel with
  | zero => rfl
  | succ n =>
    have h' : ¬ i < L := Nat.not_lt.mpr h
    simp [chunkAudioLoop, h']

theorem chunkAudioLoop_cons (L c fuel i : Nat) (h : i < L) :
    chunkAudioLoop L c (fuel + 1) i =
      (if L ≤ i + c then ((i : Int), (-1 : Int)) else ((i : Int), ((i + c : Nat) : Int)))
        :: chunkAudioLoop L c fuel (i + c + 1) := by
  simp [chunkAudioLoop, h]

theorem chunkAudioLoop_mem (L c : Nat) :
    ∀ fuel i, L - i ≤ fuel → ∀ r ∈ chunkAudioLoop L c fuel i,
      ∃ j : Nat, i ≤ j ∧ j < L ∧ r.1 = (j : Int) ∧
        ((L ≤ j + c ∧ r.2 = -1) ∨ (j + c < L ∧ r.2 = ((j + c : Nat) : Int))) := by
  intro fuel
  induction fuel with
  | zero =>
    intro i hf r hr
    rw [chunkAudioLoop_nil L c 0 i (by omega)] at hr
    cases hr
  | succ n ih =>
    intro i hf r hr
    by_cases hi : i < L
    · rw [chunkAudioLoop_cons L c n i hi] at hr
      rcases List.mem_cons.mp hr with hr | hr
      · subst hr
        by_cases hc : L ≤ i + c
        · exact ⟨i, le_refl i, hi, by simp [hc], Or.inl ⟨hc, by simp [hc]⟩⟩
        · exact ⟨i, le_refl i, hi, by simp [hc], Or.inr ⟨by omega, by simp [hc]⟩⟩
      · obtain ⟨j, hj1, hj2, hj3, hj4⟩ := ih (i + c + 1) (by omega) r hr
        exact ⟨j, by omega, hj2, hj3, hj4⟩
    · rw [chunkAudioLoop_nil L c (n + 1) i (by omega)] at hr
      cases hr

theorem chunkAudioLoop_covers (L c : Nat) :
    ∀ fuel i, L - i ≤ fuel → ∀ x : Nat,
      (∃ r ∈ chunkAudioLoop L c fuel i, coversByte L r x) ↔ (i ≤ x ∧ x < L) := by
  intro fuel
  induction fuel with
  | zero =>
    intro i hf x
    rw [chunkAudioLoop_nil L c 0 i (by omega)]
    simp
    omega
  | succ n ih =>
    intro i hf x
    by_cases hi : i < L
    · rw [chunkAudioLoop_cons L c n i hi]
      by_cases hc : L ≤ i + c
      · rw [if_pos hc, chunkAudioLoop_nil L c n (i + c + 1) (by omega)]
        simp only [List.mem_cons, List.not_mem_nil, or_false]
        constructor
        · rintro ⟨r, rfl, h1, h2⟩
          rw [if_pos rfl] at h2
          constructor <;> omega
        · rintro ⟨h1, h2⟩
          refine ⟨_, rfl, by simpa using h1, ?_⟩
          rw [if_pos rfl]
          omega
      · rw [if_neg hc]
        have iht := ih (i + c + 1) (by omega) x
        constructor
        · rintro ⟨r, hr, hcov⟩
          rcases List.mem_cons.mp hr with rfl | hr
          · obtain ⟨h1, h2⟩ := hcov
            rw [if_neg (by omega)] at h2
            simp only at h1 h2
            constructor <;> omega
          · have := iht.mp ⟨r, hr, hcov⟩
            omega
        · rintro ⟨h1, h2⟩
          by_cases hx : x ≤ i + c
          · refine ⟨_, List.mem_cons_self _ _, ?_, ?_⟩
            · simpa using h1
            · rw [if_neg (by omega)]
              simp only
              exact_mod_cast hx
          · obtain ⟨r, hr, hcov⟩ := iht.mpr ⟨by omega, h2⟩
            exact ⟨r, List.mem_cons_of_mem _ hr, hcov⟩
    · rw [chunkAudioLoop_nil L c (n + 1) i (by omega)]
      simp
      omega

theorem chunkAudioLoop_pairwise (L c : Nat) :
    ∀ fuel i, L - i ≤ fuel →
      (chunkAudioLoop L c fuel i).Pairwise
        (fun a b => ∀ x : Nat, coversByte L a x → coversByte L b x → False) := by
  intro fuel
  induction fuel with
  | zero =>
    intro i hf
    rw [chunkAudioLoop_nil L c 0 i (by omega)]
    exact List.Pairwise.nil
  | succ n ih =>
    intro i hf
    by_cases hi : i < L
    · rw [chunkAudioLoop_cons L c n i hi]
      refine List.Pairwise.cons ?_ (ih (i + c + 1) (by omega))
      intro b hb x hcovh hcovb
      by_cases hc : L ≤ i + c
      · rw [chunkAudioLoop_nil L c n (i + c + 1) (by omega)] at hb
        cases hb
      · rw [if_neg hc] at hcovh
        obtain ⟨h1, h2⟩ := hcovh
        rw [if_neg (by omega)] at h2
        simp only at h1 h2
        obtain ⟨j, hj1, hj2, hj3, _⟩ := chunkAudioLoop_mem L c n (i + c + 1) (by omega) b hb
        have h3 : b.1 ≤ (x : Int) := hcovb.1
        rw [hj3] at h3
        omega
    · rw [chunkAudioLoop_nil L c (n + 1) i (by omega)]
      exact List.Pairwise.nil

theorem chunkAudioLoop_head (L c fuel i : Nat) (hf : L - i ≤ fuel) (hi : i < L) :
    ∃ e : Int, (chunkAudioLoop L c fuel i).head? = some ((i : Int), e) := by
  cases fuel with
  | zero => omega
  | succ n =>
    rw [chunkAudioLoop_cons L c n i hi]
    by_cases hc : L ≤ i + c
    · exact ⟨-1, by rw [if_pos hc]; rfl⟩
    · exact ⟨((i + c : Nat) : Int), by rw [if_neg hc]; rfl⟩

theorem chunkAudioLoop_contiguous (L c : Nat) :
    ∀ fuel i, L - i ≤ fuel →
      (chunkAudioLoop L c fuel i).Chain' (fun a b => b.1 = a.2 + 1) := by
  intro fuel
  induction fuel with
  | zero =>
    intro i hf
    rw [chunkAudioLoop_nil L c 0 i (by omega)]
    exact List.chain'_nil
  | succ n ih =>
    intro i hf
    by_cases hi : i < L
    · rw [chunkAudioLoop_cons L c n i hi]
      refine List.chain'_cons'.mpr ⟨?_, ih (i + c + 1) (by omega)⟩
      intro y hy
      by_cases hc : L ≤ i + c
      · rw [chunkAudioLoop_nil L c n (i + c + 1) (by omega)] at hy
        cases hy
      · by_cases hlt : i + c + 1 < L
        · obtain ⟨e, he⟩ := chunkAudioLoop_head L c n (i + c + 1) (by omega) hlt
          rw [he] at hy
          cases hy
          rw [if_neg hc]
          simp only
          push_cast
          ring
        · rw [chunkAudioLoop_nil L c n (i + c + 1) (by omega)] at hy
          cases hy
    · rw [chunkAudioLoop_nil L c (n + 1) i (by omega)]
      exact List.chain'_nil

theorem chunkAudioLoop_ascending (L c : Nat) :
    ∀ fuel i, L - i ≤ fuel →
      (chunkAudioLoop L c fuel i).Chain' (fun a b => a.1 < b.1) := by
  intro fuel
  induction fuel with
  | zero =>
    intro i hf
    rw [chunkAudioLoop_nil L c 0 i (by omega)]
    exact List.chain'_nil
  | succ n ih =>
    intro i hf
    by_cases hi : i < L
    · rw [chunkAudioLoop_cons L c n i hi]
      refine List.chain'_cons'.mpr ⟨?_, ih (i + c + 1) (by omega)⟩
      intro y hy
      by_cases hlt : i + c + 1 < L
      · obtain ⟨e, he⟩ := chunkAudioLoop_head L c n (i + c + 1) (by omega) hlt
        rw [he] at hy
        cases hy
        by_cases hc : L ≤ i + c <;> simp [hc] <;> omega
      · rw [chunkAudioLoop_nil L c n (i + c + 1) (by omega)] at hy
        cases hy
    · rw [chunkAudioLoop_nil L c (n + 1) i (by omega)]
      exact List.chain'_nil

theorem chunkAudioLoop_dropLast (L c : Nat) :
    ∀ fuel i, L - i ≤ fuel → ∀ r ∈ (chunkAudioLoop L c fuel i).dropLast, r.2 ≠ -1 := by
  intro fuel
  induction fuel with
  | zero =>
    intro i hf r hr
    rw [chunkAudioLoop_nil L c 0 i (by omega)] at hr
    cases hr
  | succ n ih =>
    intro i hf r hr
    by_cases hi : i < L
    · rw [chunkAudioLoop_cons L c n i hi] at hr
      rcases h' : chunkAudioLoop L c n (i + c + 1) with _ | ⟨hd, tl⟩
      · rw [h'] at hr
        simp at hr
      · rw [h', List.dropLast_cons₂] at hr
        have hc : ¬ L ≤ i + c := by
          intro hc
          rw [chunkAudioLoop_nil L c n (i + c + 1) (by omega)] at h'
          cases h'
        rcases List.mem_cons.mp hr with rfl | hr
        · rw [if_neg hc]
          simp only
          omega
        · have := ih (i + c + 1) (by omega) r
          rw [h'] at this
          exact this hr
    · rw [chunkAudioLoop_nil L c (n + 1) i (by omega)] at hr
      cases hr

theorem chunkAudioLoop_getLast (L c : Nat) :
    ∀ fuel i, L - i ≤ fuel → i < L → ∀ r, (chunkAudioLoop L c fuel i).getLast? = some r →
      (r.2 = -1 ↔ ¬ ((c + 1) ∣ (L - i))) := by
  intro fuel
  induction fuel with
  | zero => intro i hf hi; omega
  | succ n ih =>
    intro i hf hi r hr
    rw [chunkAudioLoop_cons L c n i hi] at hr
    by_cases hc : L ≤ i + c
    · rw [chunkAudioLoop_nil L c n (i + c + 1) (by omega), if_pos hc] at hr
      simp only [List.getLast?_singleton, Option.some.injEq] at hr
      subst hr
      simp only [eq_self_iff_true, true_iff]
      intro hdvd
      have hpos : 0 < L - i := by omega
      have := Nat.le_of_dvd hpos hdvd
      omega
    · rcases h' : chunkAudioLoop L c n (i + c + 1) with _ | ⟨hd, tl⟩
      · -- the loop ends right after this closed chunk: L = i + c + 1
        have hL : L ≤ i + c + 1 := by
          by_contra hlt
          obtain ⟨e, he⟩ := chunkAudioLoop_head L c n (i + c + 1) (by omega) (by omega)
          rw [h'] at he
          cases he
        rw [h', if_neg hc] at hr
        simp only [List.getLast?_singleton, Option.some.injEq] at hr
        subst hr
        have hdvd : (c + 1) ∣ (L - i) := by
          have : L - i = c + 1 := by omega
          rw [this]
        constructor
        · intro h2
          simp only at h2
          omega
        · intro hnd
          exact absurd hdvd hnd
      · rw [h', List.getLast?_cons_cons] at hr
        have hlast := ih (i + c + 1) (by omega) (by
          by_contra hge
          rw [chunkAudioLoop_nil L c n (i + c + 1) (by omega)] at h'
          cases h') r (by rw [h']; exact hr)
        rw [hlast]
        have hstep : L - (i + c + 1) + (c + 1) = L - i := by
          have : i + c + 1 ≤ L := by
            by_contra hge
            rw [chunkAudioLoop_nil L c n (i + c + 1) (by omega)] at h'
            cases h'
          omega
        constructor
        · intro hnd hdvd
          apply hnd
          rw [← hstep] at hdvd
          exact (Nat.dvd_add_self_right).mp hdvd
        · intro hnd hdvd
          apply hnd
          rw [← hstep]
          exact (Nat.dvd_add_self_right).mpr hdvd

theorem chunk_audio_ne_nil (L C : Nat) (hL : 0 < L) : chunk_audio L (some C) ≠ [] := by
  obtain ⟨m, rfl⟩ : ∃ m, L = m + 1 := ⟨L - 1, by omega⟩
  show chunkAudioLoop (m + 1) C (m + 1) 0 ≠ []
  rw [chunkAudioLoop_cons (m + 1) C m 0 (by omega)]
  simp

/-! ## Claim theorems about `chunk_audio` (C3, C4, C10) -/

/-- C4: for every totalLength `L ≥ 0` and chunkSize `C > 0`, the ranges of
`chunk_audio L C` are contiguous (each range starts right after the previous
one ends) and non-overlapping, their union — a closed range `(s, e)` covering
bytes `s..e` inclusive, an open range covering `s..L-1` — equals `[0, L)`,
and every closed range spans exactly `C + 1` bytes. -/
theorem chunk_audio_partition (L C : Nat) (_hC : 0 < C) :
    (chunk_audio L (some C)).Chain' (fun a b => b.1 = a.2 + 1) ∧
    (chunk_audio L (some C)).Pairwise
      (fun a b => ∀ x : Nat, coversByte L a x → coversByte L b x → False) ∧
    (∀ x : Nat, (∃ r ∈ chunk_audio L (some C), coversByte L r x) ↔ x < L) ∧
    (∀ r ∈ chunk_audio L (some C), r.2 ≠ -1 → r.2 - r.1 + 1 = (C : Int) + 1) := by
  unfold chunk_audio
  refine ⟨chunkAudioLoop_contiguous L C L 0 (by omega),
    chunkAudioLoop_pairwise L C L 0 (by omega), ?_, ?_⟩
  · intro x
    have := chunkAudioLoop_covers L C L 0 (by omega) x
    simpa using this
  · intro r hr hne
    obtain ⟨j, _, _, hj3, hj4⟩ := chunkAudioLoop_mem L C L 0 (by omega) r hr
    rcases hj4 with ⟨_, h2⟩ | ⟨_, h2⟩
    · exact absurd h2 hne
    · rw [hj3, h2]
      push_cast
      ring

/-- Witness for C4 at `L = 5`, `C = 2` (plan `[(0, 2), (3, -1)]`). -/
theorem chunk_audio_partition_witness :
    0 < 2 ∧ (∀ x : Nat, (∃ r ∈ chunk_audio 5 (some 2), coversByte 5 r x) ↔ x < 5) :=
  ⟨by decide, (chunk_audio_partition 5 2 (by decide)).2.2.1⟩

/-- Counterexample to C3 as stated: at `L = 2`, `C = 1` (so `C + 1` divides
`L`) the plan is the single range `(0, 1)`, whose last range is closed, not
open-ended. -/
theorem chunk_audio_last_open_counterexample :
    (0 : Nat) < 2 ∧ (0 : Nat) < 1 ∧
      chunk_audio 2 (some 1) = [((0 : Int), (1 : Int))] ∧ ((1 : Int) ≠ -1) := by
  decide

/-- C3 (amended): for `L > 0` and `C > 0`, `chunk_audio L C` is non-empty,
every range except the last is closed, starts are strictly ascending, and the
final range is open-ended if and only if `C + 1` does not divide `L` (when
`C + 1` divides `L` the final range is closed). -/
theorem chunk_audio_last_range (L C : Nat) (hL : 0 < L) (_hC : 0 < C) :
    chunk_audio L (some C) ≠ [] ∧
    (∀ r ∈ (chunk_audio L (some C)).dropLast, r.2 ≠ -1) ∧
    (∀ r, (chunk_audio L (some C)).getLast? = some r → (r.2 = -1 ↔ ¬ ((C + 1) ∣ L))) ∧
    (chunk_audio L (some C)).Chain' (fun a b => a.1 < b.1) := by
  refine ⟨chunk_audio_ne_nil L C hL, ?_, ?_, ?_⟩
  · exact chunkAudioLoop_dropLast L C L 0 (by omega)
  · intro r hr
    have := chunkAudioLoop_getLast L C L 0 (by omega) (by omega) r hr
    simpa using this
  · exact chunkAudioLoop_ascending L C L 0 (by omega)

/-- Witness for the amended C3 at `L = 3`, `C = 1` (plan `[(0, 1), (2, -1)]`;
`2` does not divide `3`, and the last range is indeed open). -/
theorem chunk_audio_last_range_witness :
    0 < 3 ∧ 0 < 1 ∧ chunk_audio 3 (some 1) ≠ [] :=
  ⟨by decide, by decide, (chunk_audio_last_range 3 1 (by decide) (by decide)).1⟩

/-- C10: for every chunkSize `C > 0`, `chunk_audio 0 C` is the empty list — a
zero-length body yields no ranges at all — while `chunk_audio 0 None` still
returns the single open-ended range `(0, -1)`. -/
theorem chunk_audio_zero_length (C : Nat) (_hC : 0 < C) :
    chunk_audio 0 (some C) = [] ∧ chunk_audio 0 none = [((0 : Int), (-1 : Int))] :=
  ⟨rfl, rfl⟩

/-- Witness for C10 at `C = 1`. -/
theorem chunk_audio_zero_length_witness :
    0 < 1 ∧ chunk_audio 0 (some 1) = [] :=
  ⟨by decide, (chunk_audio_zero_length 1 (by decide)).1⟩

/-! ## Lemmas about the retry loops -/

theorem retryFrom_calls_le {E α : Type} (cfg : RetryConfig) (respStatus : α → Option Int)
    (op : Nat → Except E α) :
    ∀ left idx b last, (retryFrom cfg respStatus op left idx b last).calls ≤ left := by
  intro left
  induction left with
  | zero => intro idx b last; simp [retryFrom]
  | succ n ih =>
    intro idx b last
    cases h : op idx with
    | ok v =>
      by_cases hsr : should_retry_response respStatus v cfg = true
      · by_cases hidx : idx < cfg.maxRetries
        · simp only [retryFrom, h, hsr, hidx, if_true]
          have := ih (idx + 1) (nextBackoff cfg b) last
          omega
        · simp only [retryFrom, h, hsr, hidx, if_true, if_false]
          omega
      · simp only [retryFrom, h, Bool.not_eq_true] at hsr ⊢
        simp only [hsr, Bool.false_eq_true, if_false]
        omega
    | error e =>
      by_cases hidx : idx < cfg.maxRetries
      · simp only [retryFrom, h, hidx, if_true]
        have := ih (idx + 1) (nextBackoff cfg b) (some e)
        omega
      · simp only [retryFrom, h, hidx, if_false]
        omega

theorem retryFrom_allError {E α : Type} (cfg : RetryConfig) (respStatus : α → Option Int)
    (op : Nat → Except E α) (hop : ∀ i, ∃ e, op i = Except.error e) :
    ∀ left idx b last, idx + left = cfg.maxRetries + 1 → 0 < left →
      (retryFrom cfg respStatus op left idx b last).calls = left ∧
      ∃ e, op cfg.maxRetries = Except.error e ∧
        (retryFrom cfg respStatus op left idx b last).result = .error (some e) := by
  intro left
  induction left with
  | zero => intro idx b last _ h0; exact absurd h0 (by omega)
  | succ n ih =>
    intro idx b last hsum _
    obtain ⟨e, he⟩ := hop idx
    by_cases hidx : idx < cfg.maxRetries
    · have hrec := ih (idx + 1) (nextBackoff cfg b) (some e) (by omega) (by omega)
      constructor
      · simp only [retryFrom, he, hidx, if_true]
        rw [hrec.1]
      · obtain ⟨e', he', hres⟩ := hrec.2
        refine ⟨e', he', ?_⟩
        simp only [retryFrom, he, hidx, if_true]
        exact hres
    · have hidx' : idx = cfg.maxRetries := by omega
      have hn : n = 0 := by omega
      subst hn
      constructor
      · simp only [retryFrom, he, hidx, if_false]
      · exact ⟨e, by rw [← hidx']; exact he, by simp only [retryFrom, he, hidx, if_false]⟩

theorem retryFrom_allError_sleeps_len {E α : Type} (cfg : RetryConfig)
    (respStatus : α → Option Int) (op : Nat → Except E α)
    (hop : ∀ i, ∃ e, op i = Except.error e) :
    ∀ left idx b last, idx + left = cfg.maxRetries + 1 → 0 < left →
      (retryFrom cfg respStatus op left idx b last).sleeps.length = left - 1 := by
  intro left
  induction left with
  | zero => intro idx b last _ h0; exact absurd h0 (by omega)
  | succ n ih =>
    intro idx b last hsum _
    obtain ⟨e, he⟩ := hop idx
    by_cases hidx : idx < cfg.maxRetries
    · simp only [retryFrom, he, hidx, if_true, List.length_cons]
      rw [ih (idx + 1) (nextBackoff cfg b) (some e) (by omega) (by omega)]
      omega
    · have hn : n = 0 := by omega
      subst hn
      simp only [retryFrom, he, hidx, if_false, List.length_nil]

theorem retryFrom_sleeps {E α : Type} (cfg : RetryConfig) (respStatus : α → Option Int)
    (op : Nat → Except E α) :
    ∀ left idx b last j x,
      ((retryFrom cfg respStatus op left idx b last).sleeps)[j]? = some x →
      x = (nextBackoff cfg)^[j] b := by
  intro left
  induction left with
  | zero => intro idx b last j x h; simp [retryFrom] at h
  | succ n ih =>
    intro idx b last j x h
    cases hop : op idx with
    | ok v =>
      by_cases hsr : should_retry_response respStatus v cfg = true
      · by_cases hidx : idx < cfg.maxRetries
        · simp only [retryFrom, hop, hsr, hidx, if_true] at h
          cases j with
          | zero =>
            simp only [List.getElem?_cons_zero, Option.some.injEq] at h
            exact h.symm
          | succ k =>
            simp only [List.getElem?_cons_succ] at h
            rw [ih (idx + 1) (nextBackoff cfg b) last k x h, Function.iterate_succ_apply]
        · simp only [retryFrom, hop, hsr, hidx, if_true, if_false] at h
          simp at h
      · simp only [retryFrom, hop, Bool.not_eq_true] at hsr h
        simp only [hsr, Bool.false_eq_true, if_false] at h
        simp at h
    | error e =>
      by_cases hidx : idx < cfg.maxRetries
      · simp only [retryFrom, hop, hidx, if_true] at h
        cases j with
        | zero =>
          simp only [List.getElem?_cons_zero, Option.some.injEq] at h
          exact h.symm
        | succ k =>
          simp only [List.getElem?_cons_succ] at h
          rw [ih (idx + 1) (nextBackoff cfg b) (some e) k x h, Function.iterate_succ_apply]
      · simp only [retryFrom, hop, hidx, if_false] at h
        simp at h

/-! ## Claim theorems about the retry loops (C6, C7) -/

/-- C6: for every config with `maxRetries ≥ 0` and every operation that
raises a fault on every invocation, `retry_with_backoff` and
`retry_with_backoff_async` invoke the operation exactly `maxRetries + 1`
times and then re-raise the fault raised by the last invocation unchanged;
and for any operation whatsoever they never invoke it more than
`maxRetries + 1` times. -/
theorem retry_invocation_count {E α : Type} (cfg : RetryConfig)
    (respStatus : α → Option Int) (op : Nat → Except E α) :
    ((∀ i, ∃ e, op i = Except.error e) →
      (retry_with_backoff cfg respStatus op).calls = cfg.maxRetries + 1 ∧
      (retry_with_backoff_async cfg respStatus op).calls = cfg.maxRetries + 1 ∧
      ∃ e, op cfg.maxRetries = Except.error e ∧
        (retry_with_backoff cfg respStatus op).result = .error (some e) ∧
        (retry_with_backoff_async cfg respStatus op).result = .error (some e)) ∧
    (retry_with_backoff cfg respStatus op).calls ≤ cfg.maxRetries + 1 ∧
    (retry_with_backoff_async cfg respStatus op).calls ≤ cfg.maxRetries + 1 := by
  refine ⟨?_, ?_, ?_⟩
  · intro hop
    obtain ⟨hcalls, e, he, hres⟩ :=
      retryFrom_allError cfg respStatus op hop (cfg.maxRetries + 1) 0 cfg.initialBackoff none
        (by omega) (by omega)
    exact ⟨hcalls, hcalls, e, he, hres, hres⟩
  · exact retryFrom_calls_le cfg respStatus op (cfg.maxRetries + 1) 0 cfg.initialBackoff none
  · exact retryFrom_calls_le cfg respStatus op (cfg.maxRetries + 1) 0 cfg.initialBackoff none

/-- Witness for C6: with `maxRetries = 3` and an operation that always raises
the fault `7`, the loop makes 4 invocations and re-raises `7`. -/
theorem retry_invocation_count_witness :
    (retry_with_backoff ⟨3, 5, 2, none, []⟩ (fun _ : Nat => (none : Option Int))
        (fun _ : Nat => (Except.error 7 : Except Nat Nat))).calls = 3 + 1 ∧
    (retry_with_backoff ⟨3, 5, 2, none, []⟩ (fun _ : Nat => (none : Option Int))
        (fun _ : Nat => (Except.error 7 : Except Nat Nat))).result = .error (some 7) := by
  have h := (retry_invocation_count ⟨3, 5, 2, none, []⟩ (fun _ : Nat => (none : Option Int))
    (fun _ : Nat => (Except.error 7 : Except Nat Nat))).1 (fun _ => ⟨7, rfl⟩)
  obtain ⟨h1, _, e, he, hr, _⟩ := h
  cases he
  exact ⟨h1, hr⟩

/-- Counterexample to C7 as stated: take `maxBackoff = 0` (a bounded value),
`initialBackoff = 5`, `exponent = 2`, `maxRetries = 2` and an always-raising
operation. The claimed recurrence `b1 = min (b0 * exponent) maxBackoff`
demands a second sleep of `min (5 * 2) 0 = 0`, but the code sleeps `10`:
Python's `config.max_backoff or float('inf')` treats a zero cap as absent. -/
theorem retry_backoff_counterexample :
    (retry_with_backoff ⟨2, 5, 2, some 0, []⟩ (fun _ : Nat => (none : Option Int))
        (fun _ : Nat => (Except.error 0 : Except Nat Nat))).sleeps[1]? = some 10 ∧
    min ((5 : ℚ) * 2) 0 = 0 ∧ (10 : ℚ) ≠ 0 := by
  have hop : ∀ i : Nat, ∃ e : Nat, (fun _ : Nat => (Except.error 0 : Except Nat Nat)) i
      = Except.error e := fun _ => ⟨0, rfl⟩
  have hlen := retryFrom_allError_sleeps_len (⟨2, 5, 2, some 0, []⟩ : RetryConfig)
    (fun _ : Nat => (none : Option Int)) (fun _ : Nat => (Except.error 0 : Except Nat Nat))
    hop 3 0 5 none (by norm_num) (by norm_num)
  have h1lt : 1 < ((retry_with_backoff ⟨2, 5, 2, some 0, []⟩ (fun _ : Nat => (none : Option Int))
      (fun _ : Nat => (Except.error 0 : Except Nat Nat))).sleeps).length := by
    rw [show (retry_with_backoff ⟨2, 5, 2, some 0, []⟩ (fun _ : Nat => (none : Option Int))
      (fun _ : Nat => (Except.error 0 : Except Nat Nat))).sleeps
        = (retryFrom (⟨2, 5, 2, some 0, []⟩ : RetryConfig) (fun _ : Nat => (none : Option Int))
            (fun _ : Nat => (Except.error 0 : Except Nat Nat)) 3 0 5 none).sleeps from rfl, hlen]
    norm_num
  have hsome := List.getElem?_eq_getElem h1lt
  have hval := retryFrom_sleeps (⟨2, 5, 2, some 0, []⟩ : RetryConfig)
    (fun _ : Nat => (none : Option Int)) (fun _ : Nat => (Except.error 0 : Except Nat Nat))
    3 0 5 none 1 _ hsome
  refine ⟨?_, ?_, by norm_num⟩
  · rw [hsome, hval]
    have : (nextBackoff (⟨2, 5, 2, some 0, []⟩ : RetryConfig))^[1] 5 = 10 := by
      rw [Function.iterate_one]
      show (if (0 : ℚ) = 0 then (5 : ℚ) * 2 else min ((5 : ℚ) * 2) 0) = 10
      rw [if_pos rfl]
      norm_num
    rw [this]
  · rw [min_eq_right (by norm_num)]

/-- C7 (amended): for every config, the backoff durations slept between
successive failed attempts satisfy `b0 = initialBackoff` and
`b(i+1) = min (bi * exponent) maxBackoff`, where `maxBackoff` is treated as
`+∞` (no cap) when it is unbounded — and also, as Python's truthiness test
`max_backoff or float('inf')` dictates, when it is set to `0`. Stated for
`retry_with_backoff` and `retry_with_backoff_async` alike, over the recorded
sleep trace. -/
theorem retry_backoff_schedule {E α : Type} (cfg : RetryConfig)
    (respStatus : α → Option Int) (op : Nat → Except E α) :
    (∀ x, (retry_with_backoff cfg respStatus op).sleeps[0]? = some x →
      x = cfg.initialBackoff) ∧
    (∀ j x y, (retry_with_backoff cfg respStatus op).sleeps[j]? = some x →
      (retry_with_backoff cfg respStatus op).sleeps[j + 1]? = some y →
      y = (match cfg.maxBackoff with
           | none => x * cfg.exponent
           | some m => if m = 0 then x * cfg.exponent else min (x * cfg.exponent) m)) ∧
    (∀ x, (retry_with_backoff_async cfg respStatus op).sleeps[0]? = some x →
      x = cfg.initialBackoff) ∧
    (∀ j x y, (retry_with_backoff_async cfg respStatus op).sleeps[j]? = some x →
      (retry_with_backoff_async cfg respStatus op).sleeps[j + 1]? = some y →
      y = (match cfg.maxBackoff with
           | none => x * cfg.exponent
           | some m => if m = 0 then x * cfg.exponent else min (x * cfg.exponent) m)) := by
  have key : ∀ j x y,
      (retryFrom cfg respStatus op (cfg.maxRetries + 1) 0 cfg.initialBackoff none).sleeps[j]?
        = some x →
      (retryFrom cfg respStatus op (cfg.maxRetries + 1) 0 cfg.initialBackoff none).sleeps[j + 1]?
        = some y →
      y = (match cfg.maxBackoff with
           | none => x * cfg.exponent
           | some m => if m = 0 then x * cfg.exponent else min (x * cfg.exponent) m) := by
    intro j x y hx hy
    have hx' := retryFrom_sleeps cfg respStatus op (cfg.maxRetries + 1) 0
      cfg.initialBackoff none j x hx
    have hy' := retryFrom_sleeps cfg respStatus op (cfg.maxRetries + 1) 0
      cfg.initialBackoff none (j + 1) y hy
    rw [hy', Function.iterate_succ_apply', ← hx']
    rfl
  have key0 : ∀ x,
      (retryFrom cfg respStatus op (cfg.maxRetries + 1) 0 cfg.initialBackoff none).sleeps[0]?
        = some x → x = cfg.initialBackoff := by
    intro x hx
    exact retryFrom_sleeps cfg respStatus op (cfg.maxRetries + 1) 0 cfg.initialBackoff none 0 x hx
  exact ⟨key0, key, key0, key⟩

/-- Witness for the amended C7: with `initialBackoff = 5`, `exponent = 2`,
`maxBackoff = 60` and an always-raising operation, the first sleep is the
initial backoff and the second sleep is `min (5 * 2) 60`. -/
theorem retry_backoff_schedule_witness :
    (5 : ℚ) = (⟨2, 5, 2, some 60, []⟩ : RetryConfig).initialBackoff ∧
    (10 : ℚ) = min ((5 : ℚ) * 2) 60 := by
  have hop : ∀ i : Nat, ∃ e : Nat, (fun _ : Nat => (Except.error 0 : Except Nat Nat)) i
      = Except.error e := fun _ => ⟨0, rfl⟩
  have hlen := retryFrom_allError_sleeps_len (⟨2, 5, 2, some 60, []⟩ : RetryConfig)
    (fun _ : Nat => (none : Option Int)) (fun _ : Nat => (Except.error 0 : Except Nat Nat))
    hop 3 0 5 none (by norm_num) (by norm_num)
  have h0lt : 0 < ((retry_with_backoff ⟨2, 5, 2, some 60, []⟩ (fun _ : Nat => (none : Option Int))
      (fun _ : Nat => (Except.error 0 : Except Nat Nat))).sleeps).length := by
    rw [show (retry_with_backoff ⟨2, 5, 2, some 60, []⟩ (fun _ : Nat => (none : Option Int))
      (fun _ : Nat => (Except.error 0 : Except Nat Nat))).sleeps
        = (retryFrom (⟨2, 5, 2, some 60, []⟩ : RetryConfig) (fun _ : Nat => (none : Option Int))
            (fun _ : Nat => (Except.error 0 : Except Nat Nat)) 3 0 5 none).sleeps from rfl, hlen]
    norm_num
  have h1lt : 1 < ((retry_with_backoff ⟨2, 5, 2, some 60, []⟩ (fun _ : Nat => (none : Option Int))
      (fun _ : Nat => (Except.error 0 : Except Nat Nat))).sleeps).length := by
    rw [show (retry_with_backoff ⟨2, 5, 2, some 60, []⟩ (fun _ : Nat => (none : Option Int))
      (fun _ : Nat => (Except.error 0 : Except Nat Nat))).sleeps
        = (retryFrom (⟨2, 5, 2, some 60, []⟩ : RetryConfig) (fun _ : Nat => (none : Option Int))
            (fun _ : Nat => (Except.error 0 : Except Nat Nat)) 3 0 5 none).sleeps from rfl, hlen]
    norm_num
  have hs0 := List.getElem?_eq_getElem h0lt
  have hs1 := List.getElem?_eq_getElem h1lt
  have hv0 := retryFrom_sleeps (⟨2, 5, 2, some 60, []⟩ : RetryConfig)
    (fun _ : Nat => (none : Option Int)) (fun _ : Nat => (Except.error 0 : Except Nat Nat))
    3 0 5 none 0 _ hs0
  have hv1 := retryFrom_sleeps (⟨2, 5, 2, some 60, []⟩ : RetryConfig)
    (fun _ : Nat => (none : Option Int)) (fun _ : Nat => (Except.error 0 : Except Nat Nat))
    3 0 5 none 1 _ hs1
  have he0 : ((retry_with_backoff ⟨2, 5, 2, some 60, []⟩ (fun _ : Nat => (none : Option Int))
      (fun _ : Nat => (Except.error 0 : Except Nat Nat))).sleeps)[0]? = some 5 := by
    rw [hs0, hv0]
    rfl
  have he1 : ((retry_with_backoff ⟨2, 5, 2, some 60, []⟩ (fun _ : Nat => (none : Option Int))
      (fun _ : Nat => (Except.error 0 : Except Nat Nat))).sleeps)[1]? = some 10 := by
    rw [hs1, hv1]
    have : (nextBackoff (⟨2, 5, 2, some 60, []⟩ : RetryConfig))^[1] 5 = 10 := by
      rw [Function.iterate_one]
      show (if (60 : ℚ) = 0 then (5 : ℚ) * 2 else min ((5 : ℚ) * 2) 60) = 10
      rw [if_neg (by norm_num), min_eq_left (by norm_num)]
      norm_num
    rw [this]
  have h := retry_backoff_schedule (⟨2, 5, 2, some 60, []⟩ : RetryConfig)
    (fun _ : Nat => (none : Option Int)) (fun _ : Nat => (Except.error 0 : Except Nat Nat))
  have h0 := h.1 5 he0
  have h1 := h.2.1 0 5 10 he0 he1
  refine ⟨h0, ?_⟩
  rw [h1]
  show (if (60 : ℚ) = 0 then (5 : ℚ) * 2 else min ((5 : ℚ) * 2) 60) = min ((5 : ℚ) * 2) 60
  rw [if_neg (by norm_num)]

/-! ## Claim theorem about the chunk fetch (C8) -/

/-- C8: for every chunk of a plan produced by `chunk_audio` with a positive
chunk size: (1) whenever the response's `Content-Length` header is present
and the range is closed (so an expected width is present), a mismatch between
the declared length and the expected width raises the mismatch fault; (2)
that fault is retried by the wrapping `retry_with_backoff_async` up to the
policy limit — with responses that always mismatch, the fetch is attempted
exactly `maxRetries + 1` times and the fault then surfaces instead of data
being returned; (3) for an open-ended range no mismatch fault is ever raised;
(4) when the `Content-Length` header is absent no mismatch fault is ever
raised. -/
theorem chunk_fetch_mismatch (L C : Nat) (chunk : ByteRange)
    (hmem : chunk ∈ chunk_audio L (some C)) :
    (∀ resp : ChunkResp, resp.ok = true → chunk.2 ≠ -1 →
      ∀ cl, resp.contentLength = some cl → cl ≠ chunk.2 - chunk.1 + 1 →
        make_async_request chunk resp
          = .error (.contentLengthMismatch (chunk.2 - chunk.1 + 1) cl)) ∧
    (chunk.2 ≠ -1 → ∀ (cfg : RetryConfig) (resps : Nat → ChunkResp),
      (∀ i, (resps i).ok = true ∧ ∃ cl, (resps i).contentLength = some cl ∧
        cl ≠ chunk.2 - chunk.1 + 1) →
      (fetchChunkWithRetry cfg chunk resps).calls = cfg.maxRetries + 1 ∧
      ∃ e, (fetchChunkWithRetry cfg chunk resps).result = .error (some e)) ∧
    (∀ ch : ByteRange, ch.2 = -1 →
      ∀ resp : ChunkResp, ¬ isMismatch (make_async_request ch resp)) ∧
    (∀ (ch : ByteRange) (resp : ChunkResp), resp.contentLength = none →
      ¬ isMismatch (make_async_request ch resp)) := by
  have hwidth : chunk.2 ≠ -1 → chunk.2 = chunk.1 + (C : Int) := by
    intro hcl2
    obtain ⟨j, _, _, hj3, hj4⟩ := chunkAudioLoop_mem L C L 0 (by omega) chunk hmem
    rcases hj4 with ⟨_, h2⟩ | ⟨_, h2⟩
    · exact absurd h2 hcl2
    · rw [hj3, h2]
      push_cast
      ring
  have hmain : ∀ resp : ChunkResp, resp.ok = true → chunk.2 ≠ -1 →
      ∀ cl, resp.contentLength = some cl → cl ≠ chunk.2 - chunk.1 + 1 →
        make_async_request chunk resp
          = .error (.contentLengthMismatch (chunk.2 - chunk.1 + 1) cl) := by
    intro resp hok hcl2 cl hcl hne
    have hexp : chunk.2 - chunk.1 + 1 ≠ 0 := by
      have := hwidth hcl2
      omega
    simp only [make_async_request, hok, Bool.true_eq_false, if_false, hcl]
    rw [if_pos hcl2]
    simp only
    rw [if_pos hexp, if_pos hne]
  refine ⟨hmain, ?_, ?_, ?_⟩
  · intro hcl2 cfg resps hall
    have hop : ∀ i, ∃ e, make_async_request chunk (resps i) = Except.error e := by
      intro i
      obtain ⟨hok, cl, hcl, hne⟩ := hall i
      exact ⟨_, hmain (resps i) hok hcl2 cl hcl hne⟩
    obtain ⟨hcalls, e, _, hres⟩ := retryFrom_allError cfg (fun _ => none)
      (fun i => make_async_request chunk (resps i)) hop (cfg.maxRetries + 1) 0
      cfg.initialBackoff none (by omega) (by omega)
    exact ⟨hcalls, e, hres⟩
  · intro ch hopen resp hmis
    obtain ⟨a, b, hab⟩ := hmis
    cases hok : resp.ok with
    | false =>
      simp only [make_async_request, hok, if_pos rfl] at hab
      cases hab
    | true =>
      cases hcl : resp.contentLength with
      | none =>
        simp only [make_async_request, hok, Bool.true_eq_false, if_false, hcl] at hab
        cases hab
      | some cl =>
        simp only [make_async_request, hok, Bool.true_eq_false, if_false, hcl] at hab
        rw [if_neg (by simp [hopen])] at hab
        cases hab
  · intro ch resp hnone hmis
    obtain ⟨a, b, hab⟩ := hmis
    cases hok : resp.ok with
    | false =>
      simp only [make_async_request, hok, if_pos rfl] at hab
      cases hab
    | true =>
      simp only [make_async_request, hok, Bool.true_eq_false, if_false, hnone] at hab
      cases hab

/-- Witness for C8: the closed chunk `(0, 1)` of `chunk_audio 3 1` expects 2
bytes; a response declaring `Content-Length: 5` yields the mismatch fault. -/
theorem chunk_fetch_mismatch_witness :
    make_async_request ((0 : Int), (1 : Int)) ⟨true, 206, some 5, 0⟩
      = .error (.contentLengthMismatch 2 5) := by
  have h := (chunk_fetch_mismatch 3 1 ((0 : Int), (1 : Int)) (by decide)).1
    ⟨true, 206, some 5, 0⟩ rfl (by decide) 5 rfl (by decide)
  simpa using h

/-! ## Claim theorems about the per-page stream behaviour (C1, C9) -/

theorem flatMapPair_count_eq_zero {β : Type} (l : List β) (op : StoreOp)
    (h1 : op ≠ StoreOp.fetchChunk) (h2 : op ≠ StoreOp.uploadPart) :
    (l.flatMap (fun _ => [StoreOp.fetchChunk, StoreOp.uploadPart])).count op = 0 := by
  induction l with
  | nil => rfl
  | cons hd tl ih =>
    simp only [List.flatMap_cons, List.count_append, ih]
    cases op
    all_goals first
    | exact absurd rfl h1
    | exact absurd rfl h2
    | decide

theorem partUploadOps_count (p : Nat) (op : StoreOp)
    (h1 : op ≠ StoreOp.fetchChunk) (h2 : op ≠ StoreOp.uploadPart) :
    (partUploadOps p).count op = 0 :=
  flatMapPair_count_eq_zero (List.range p) op h1 h2

/-- C9: for every page whose destination key already exists in the object
store (head-object succeeds), `stream_recording` performs zero chunk-fetch,
zero upload-part and zero create/complete/abort multipart-upload calls for
that page — the only external call is the head-object existence check — and
the existing key is returned in the result unchanged. -/
theorem stream_page_idempotent (o : PageOracle) (key : String)
    (h : o.keyExists = true) :
    streamPage o key = (.ok key, [StoreOp.headObject]) := by
  simp [streamPage, h]

/-- Witness for C9: a page whose key already exists is skipped entirely. -/
theorem stream_page_idempotent_witness :
    streamPage ⟨true, true, 200, 0, fun _ => false, fun _ => 0⟩ "audio/1/2024/01/02/bv/1.mp4"
      = (.ok "audio/1/2024/01/02/bv/1.mp4", [StoreOp.headObject]) :=
  stream_page_idempotent ⟨true, true, 200, 0, fun _ => false, fun _ => 0⟩
    "audio/1/2024/01/02/bv/1.mp4" rfl

/-- Counterexample to C1 as stated: at a page with the destination key
absent, the URLs resolving, a 5-byte body (non-empty chunk plan) and every
multipart attempt failing, the scenario the claim describes — the `except`
branch issuing an abort for every one of the three chunk-size candidates
before a TransferFailed surfaces — never occurs: the handler crashes at
`task.cancel()` during the very first candidate, so the trace holds exactly
one create call and zero abort calls (not three), and the fault that
propagates is that `AttributeError`. -/
theorem stream_page_cancel_crash_counterexample :
    streamPage ⟨false, true, 200, 5, fun _ => true, fun _ => 0⟩ "k"
      = (.error .attributeError, [StoreOp.headObject, StoreOp.createMultipart]) ∧
    (streamPage ⟨false, true, 200, 5, fun _ => true, fun _ => 0⟩ "k").2.count
      StoreOp.abortMultipart ≠ 3 ∧
    (streamPage ⟨false, true, 200, 5, fun _ => true, fun _ => 0⟩ "k").2.count
      StoreOp.createMultipart = 1 :=
  ⟨rfl, by decide, by decide⟩

/-- C1 (amended): if the destination key is absent, the stream URL and HEAD
request succeed, and every multipart attempt fails, then `stream_recording`
propagates a fault to its caller for that page rather than returning
normally, and the destination object key is not reported as transferred —
but not by the mechanism the claim describes: the `except` handler itself
crashes at `task.cancel()` (stream.py:267; coroutine objects have no
`cancel` method), raising an `AttributeError` that escapes before the abort
call, so for a non-empty body the fault propagates on the first chunk-size
candidate, no abort is issued and the remaining candidates are never tried —
the degradation schedule is never exhausted with an abort per candidate, and
the surfaced fault is this `AttributeError`, not a TransferFailed after
three aborted attempts. -/
theorem streamPage_loop (o : PageOracle) (key : String)
    (h1 : o.keyExists = false) (h2 : o.streamUrlOk = true) (h3 : o.headStatus = 200) :
    streamPage o key
      = (Except.map (fun _ => key) (attemptLoop o chunkSizeSchedule 0).1,
         StoreOp.headObject :: (attemptLoop o chunkSizeSchedule 0).2) := by
  unfold streamPage
  rw [if_neg (by simp [h1]), if_neg (by simp [h2]), if_neg (by simp [h3])]
  rcases h : attemptLoop o chunkSizeSchedule 0 with ⟨res, t⟩
  cases res with
  | ok u => rfl
  | error e => rfl

theorem stream_page_fault_propagates (o : PageOracle) (key : String)
    (h1 : o.keyExists = false) (h2 : o.streamUrlOk = true) (h3 : o.headStatus = 200)
    (h4 : ∀ i, o.attemptFails i = true) :
    (streamPage o key).1 = .error .attributeError ∧
    (streamPage o key).1 ≠ .ok key ∧
    (0 < o.contentLength →
      (streamPage o key).2.count StoreOp.abortMultipart = 0 ∧
      (streamPage o key).2.count StoreOp.createMultipart = 1) := by
  by_cases hL : o.contentLength = 0
  · -- zero-length body: the two sized candidates have empty plans, so their
    -- failures abort and continue; the unchunked candidate's plan is the
    -- non-empty [(0, -1)] and its failure crashes the handler
    have e0 : chunk_audio o.contentLength (some (20 * 1024 * 1024)) = [] := by
      rw [hL]
      rfl
    have e1 : chunk_audio o.contentLength (some (50 * 1024 * 1024)) = [] := by
      rw [hL]
      rfl
    have e2 : ¬ chunk_audio o.contentLength none = [] := by
      rw [hL]
      simp [chunk_audio]
    have hloop : attemptLoop o chunkSizeSchedule 0
        = (.error .attributeError,
           StoreOp.createMultipart :: StoreOp.abortMultipart ::
           StoreOp.createMultipart :: StoreOp.abortMultipart ::
           StoreOp.createMultipart :: partUploadOps (o.failedParts 2)) := by
      simp [chunkSizeSchedule, attemptLoop, h4 0, h4 1, h4 2, e0, e1, e2]
    rw [streamPage_loop o key h1 h2 h3, hloop]
    exact ⟨rfl, by simp [Except.map], fun h0 => absurd h0 (by omega)⟩
  · -- non-empty body: the first candidate's plan is non-empty, its failure
    -- crashes the handler before any abort; no further candidate is tried
    have hne : ¬ chunk_audio o.contentLength (some (20 * 1024 * 1024)) = [] :=
      chunk_audio_ne_nil _ _ (by omega)
    have hloop : attemptLoop o chunkSizeSchedule 0
        = (.error .attributeError,
           StoreOp.createMultipart :: partUploadOps (o.failedParts 0)) := by
      simp [chunkSizeSchedule, attemptLoop, h4 0, hne]
    rw [streamPage_loop o key h1 h2 h3, hloop]
    refine ⟨rfl, by simp [Except.map], fun _ => ⟨?_, ?_⟩⟩
    · simp [List.count_cons,
        partUploadOps_count (o.failedParts 0) StoreOp.abortMultipart (by simp) (by simp)]
    · simp [List.count_cons,
        partUploadOps_count (o.failedParts 0) StoreOp.createMultipart (by simp) (by simp)]

/-- Witness for the amended C1 at a concrete oracle with every attempt
failing on a 5-byte body. -/
theorem stream_page_fault_propagates_witness :
    (streamPage ⟨false, true, 200, 5, fun _ => true, fun _ => 0⟩ "k").1
      = .error .attributeError ∧
    (streamPage ⟨false, true, 200, 5, fun _ => true, fun _ => 0⟩ "k").2.count
      StoreOp.abortMultipart = 0 := by
  have h := stream_page_fault_propagates ⟨false, true, 200, 5, fun _ => true, fun _ => 0⟩ "k"
    rfl rfl rfl (fun _ => rfl)
  exact ⟨h.1, (h.2.2 (by decide)).1⟩

/-! ## Lemmas about the fuzzy matcher -/

theorem stateOf_score (ratio : String → String → ℚ) (query : String)
    (c : Nat × List Segment) :
    (stateOf ratio query c).score = ratio query (windowText c.2) := rfl

theorem pageCandidates_ne_nil (n : Nat) (page : List Segment) :
    pageCandidates n page ≠ [] := by
  unfold pageCandidates
  split
  · simp
  · apply List.ne_nil_of_length_pos
    simp only [List.length_map, List.length_range]
    omega

theorem pageCandidates_window_ne_nil (n : Nat) (hn : 0 < n) (page : List Segment)
    (hp : page ≠ []) : ∀ w ∈ pageCandidates n page, w ≠ [] := by
  intro w hw
  unfold pageCandidates at hw
  split at hw
  · simp only [List.mem_singleton] at hw
    subst hw
    exact hp
  · rename_i hlen
    simp only [List.mem_map, List.mem_range] at hw
    obtain ⟨i, hi, rfl⟩ := hw
    apply List.ne_nil_of_length_pos
    rw [List.length_take, List.length_drop]
    omega

theorem transcriptCandidates_ne_nil (n : Nat) (t : Transcript) (hne : t ≠ []) :
    transcriptCandidates n t ≠ [] := by
  obtain ⟨p, rest, rfl⟩ : ∃ p rest, t = p :: rest := by
    cases t with
    | nil => exact absurd rfl hne
    | cons a l => exact ⟨a, l, rfl⟩
  unfold transcriptCandidates
  rw [List.enum_cons, List.flatMap_cons]
  intro h
  rw [List.append_eq_nil] at h
  obtain ⟨h1, _⟩ := h
  rw [List.map_eq_nil_iff] at h1
  exact pageCandidates_ne_nil n p h1

theorem transcriptCandidates_mem (n : Nat) (t : Transcript) (c : Nat × List Segment)
    (hc : c ∈ transcriptCandidates n t) : ∃ page ∈ t, c.2 ∈ pageCandidates n page := by
  unfold transcriptCandidates at hc
  rw [List.mem_flatMap] at hc
  obtain ⟨pe, hpe, hc⟩ := hc
  rw [List.mem_map] at hc
  obtain ⟨w, hw, rfl⟩ := hc
  exact ⟨pe.2, List.snd_mem_of_mem_enum hpe, by simpa using hw⟩

theorem transcriptCandidates_window_ne_nil (n : Nat) (hn : 0 < n) (t : Transcript)
    (hp : ∀ p ∈ t, p ≠ []) : ∀ c ∈ transcriptCandidates n t, c.2 ≠ [] := by
  intro c hc
  obtain ⟨page, hpage, hw⟩ := transcriptCandidates_mem n t c hc
  exact pageCandidates_window_ne_nil n hn page (hp page hpage) c.2 hw

theorem stepCandidate_none (ratio : String → String → ℚ) (query : String)
    (c : Nat × List Segment) (hc : c.2 ≠ []) :
    stepCandidate ratio query none c = .ok (some (stateOf ratio query c)) := by
  rcases c with ⟨p, w⟩
  cases w with
  | nil => exact absurd rfl hc
  | cons sg rest => rfl

theorem stepCandidate_some (ratio : String → String → ℚ) (query : String)
    (m : MatchState) (c : Nat × List Segment) (hc : c.2 ≠ []) :
    stepCandidate ratio query (some m) c =
      .ok (some (if m.score < ratio query (windowText c.2)
        then stateOf ratio query c else m)) := by
  rcases c with ⟨p, w⟩
  cases w with
  | nil => exact absurd rfl hc
  | cons sg rest =>
    have hshow : stepCandidate ratio query (some m) (p, sg :: rest)
        = if m.score < ratio query (windowText (p, sg :: rest).2)
          then (selectCandidate ratio query (p, sg :: rest)).map some
          else .ok (some m) := rfl
    rw [hshow]
    by_cases h : m.score < ratio query (windowText (p, sg :: rest).2)
    · rw [if_pos h, if_pos h]
      rfl
    · rw [if_neg h, if_neg h]

theorem foldlM_stepCandidate (ratio : String → String → ℚ) (query : String) :
    ∀ (cs : List (Nat × List Segment)), (∀ c ∈ cs, c.2 ≠ []) →
      ∀ b : Nat × List Segment,
      List.foldlM (stepCandidate ratio query) (some (stateOf ratio query b)) cs
        = .ok (some (stateOf ratio query
            (pickBestFrom (fun x => ratio query (windowText x.2)) b cs))) := by
  intro cs
  induction cs with
  | nil => intro _ b; rfl
  | cons c cs' ih =>
    intro hall b
    have hall' : ∀ c' ∈ cs', c'.2 ≠ [] :=
      fun c' hc' => hall c' (List.mem_cons_of_mem _ hc')
    rw [List.foldlM_cons, stepCandidate_some ratio query _ c (hall c (List.mem_cons_self _ _))]
    simp only [stateOf_score]
    by_cases h : ratio query (windowText b.2) < ratio query (windowText c.2)
    · rw [if_pos h]
      have hpick : pickBestFrom (fun x => ratio query (windowText x.2)) b (c :: cs')
          = pickBestFrom (fun x => ratio query (windowText x.2)) c cs' := by
        simp only [pickBestFrom]
        rw [if_pos h]
      rw [hpick]
      exact ih hall' c
    · rw [if_neg h]
      have hpick : pickBestFrom (fun x => ratio query (windowText x.2)) b (c :: cs')
          = pickBestFrom (fun x => ratio query (windowText x.2)) b cs' := by
        simp only [pickBestFrom]
        rw [if_neg h]
      rw [hpick]
      exact ih hall' b

theorem pickBestFrom_first_max (f : Nat × List Segment → ℚ) :
    ∀ (cs : List (Nat × List Segment)) (b : Nat × List Segment),
      ∃ (i : Nat) (r : Nat × List Segment), (b :: cs)[i]? = some r ∧ pickBestFrom f b cs = r ∧
        (∀ j, j < i → ∀ cj, (b :: cs)[j]? = some cj → f cj < f r) ∧
        (∀ c' ∈ b :: cs, f c' ≤ f r) := by
  intro cs
  induction cs with
  | nil =>
    intro b
    refine ⟨0, b, by simp, rfl, ?_, ?_⟩
    · intro j hj
      omega
    · intro c' hc'
      rcases List.mem_singleton.mp hc' with rfl
      exact le_refl _
  | cons c cs' ih =>
    intro b
    by_cases h : f b < f c
    · obtain ⟨i, r, hget, hpickr, hstrict, hle⟩ := ih c
      refine ⟨i + 1, r, by simpa using hget, ?_, ?_, ?_⟩
      · simp only [pickBestFrom]
        rw [if_pos h]
        exact hpickr
      · intro j hj cj hcj
        cases j with
        | zero =>
          simp only [List.getElem?_cons_zero, Option.some.injEq] at hcj
          subst hcj
          exact lt_of_lt_of_le h (hle c (List.mem_cons_self _ _))
        | succ k =>
          exact hstrict k (by omega) cj (by simpa using hcj)
      · intro c' hc'
        rcases List.mem_cons.mp hc' with rfl | hc'
        · exact le_of_lt (lt_of_lt_of_le h (hle c (List.mem_cons_self _ _)))
        · exact hle c' hc'
    · obtain ⟨i, r, hget, hpickr, hstrict, hle⟩ := ih b
      have hpick : pickBestFrom f b (c :: cs') = r := by
        simp only [pickBestFrom]
        rw [if_neg h]
        exact hpickr
      cases i with
      | zero =>
        simp only [List.getElem?_cons_zero, Option.some.injEq] at hget
        subst hget
        refine ⟨0, b, by simp, hpick, ?_, ?_⟩
        · intro j hj
          omega
        · intro c' hc'
          rcases List.mem_cons.mp hc' with rfl | hc'
          · exact le_refl _
          rcases List.mem_cons.mp hc' with rfl | hc'
          · exact le_of_not_lt h
          · exact hle c' (List.mem_cons_of_mem _ hc')
      | succ k =>
        refine ⟨k + 2, r, by simpa using hget, hpick, ?_, ?_⟩
        · intro j hj cj hcj
          cases j with
          | zero =>
            simp only [List.getElem?_cons_zero, Option.some.injEq] at hcj
            subst hcj
            exact hstrict 0 (by omega) b (by simp)
          | succ j' =>
            cases j' with
            | zero =>
              simp only [List.getElem?_cons_succ, List.getElem?_cons_zero,
                Option.some.injEq] at hcj
              subst hcj
              have hfb : f b < f r := hstrict 0 (by omega) b (by simp)
              exact lt_of_le_of_lt (le_of_not_lt h) hfb
            | succ j'' =>
              have hcj' : (b :: cs')[j'' + 1]? = some cj := by simpa using hcj
              exact hstrict (j'' + 1) (by omega) cj hcj'
        · intro c' hc'
          rcases List.mem_cons.mp hc' with rfl | hc'
          · exact hle c' (List.mem_cons_self _ _)
          rcases List.mem_cons.mp hc' with rfl | hc'
          · exact le_trans (le_of_not_lt h) (hle b (List.mem_cons_self _ _))
          · exact hle c' (List.mem_cons_of_mem _ hc')

theorem numSegmentInText_pos (query : String) : 0 < numSegmentInText query := by
  unfold numSegmentInText
  omega

theorem search_characterization (ratio : String → String → ℚ) (t : Transcript)
    (query : String) (hne : t ≠ []) (hp : ∀ p ∈ t, p ≠ []) :
    ∃ (i : Nat) (c : Nat × List Segment),
      (transcriptCandidates (numSegmentInText query) t)[i]? = some c ∧
      (∀ j, j < i → ∀ cj, (transcriptCandidates (numSegmentInText query) t)[j]? = some cj →
        ratio query (windowText cj.2) < ratio query (windowText c.2)) ∧
      (∀ c' ∈ transcriptCandidates (numSegmentInText query) t,
        ratio query (windowText c'.2) ≤ ratio query (windowText c.2)) ∧
      ∃ sg rest, c.2 = sg :: rest ∧
        search_text_in_transcript ratio t query
          = .ok (sg.start, c.1 + 1, ratio query (windowText c.2), windowText c.2) := by
  have hn : 0 < numSegmentInText query := numSegmentInText_pos query
  have hcs_ne := transcriptCandidates_ne_nil (numSegmentInText query) t hne
  have hwin := transcriptCandidates_window_ne_nil (numSegmentInText query) hn t hp
  obtain ⟨c0, rest, hcs⟩ : ∃ c0 rest,
      transcriptCandidates (numSegmentInText query) t = c0 :: rest := by
    cases h : transcriptCandidates (numSegmentInText query) t with
    | nil => exact absurd h hcs_ne
    | cons a l => exact ⟨a, l, rfl⟩
  obtain ⟨i, r, hget, hpickr, hstrict, hle⟩ :=
    pickBestFrom_first_max (fun x => ratio query (windowText x.2)) rest c0
  have hfold : List.foldlM (stepCandidate ratio query) none
      (transcriptCandidates (numSegmentInText query) t) = .ok (some (stateOf ratio query r)) := by
    rw [hcs, List.foldlM_cons,
      stepCandidate_none ratio query c0 (hwin c0 (by rw [hcs]; exact List.mem_cons_self _ _))]
    have := foldlM_stepCandidate ratio query rest
      (fun c' hc' => hwin c' (by rw [hcs]; exact List.mem_cons_of_mem _ hc')) c0
    rw [hpickr] at this
    exact this
  have hrmem : r ∈ transcriptCandidates (numSegmentInText query) t := by
    rw [hcs]
    exact List.getElem?_mem hget
  have hrne := hwin r hrmem
  obtain ⟨sg, rest', hr2⟩ : ∃ sg rest', r.2 = sg :: rest' := by
    cases h : r.2 with
    | nil => exact absurd h hrne
    | cons a l => exact ⟨a, l, rfl⟩
  refine ⟨i, r, by rw [hcs]; exact hget, ?_, ?_, sg, rest', hr2, ?_⟩
  · intro j hj cj hcj
    rw [hcs] at hcj
    exact hstrict j hj cj hcj
  · intro c' hc'
    rw [hcs] at hc'
    exact hle c' hc'
  · unfold search_text_in_transcript
    rw [hfold]
    simp only [stateOf, hr2, List.headD_cons]

/-! ## Claim theorems about the fuzzy matcher (C2, C5) -/

/-- C2 evidence: `search_text_in_transcript` never returns `None`/`null`. On a
transcript with zero pages it faults — `max_page` is still `None` at
fuzz.py:43, so `max_page + 1` raises `TypeError` — instead of returning
`None` as the claim states; on every transcript with at least one page (each
page non-empty, per the stated precondition) it returns a result tuple and
never fails. -/
theorem search_zero_pages_typeerror (ratio : String → String → ℚ) (query : String) :
    search_text_in_transcript ratio [] query = .error .typeError ∧
    ∀ (t : Transcript), t ≠ [] → (∀ p ∈ t, p ≠ []) →
      ∃ r, search_text_in_transcript ratio t query = .ok r := by
  refine ⟨rfl, ?_⟩
  intro t hne hp
  obtain ⟨i, c, _, _, _, sg, rest, _, hres⟩ := search_characterization ratio t query hne hp
  exact ⟨_, hres⟩

/-- Witness for the C2 evidence theorem at a zero-page transcript and at a
one-page transcript. -/
theorem search_zero_pages_typeerror_witness :
    search_text_in_transcript (fun _ _ => (0 : ℚ)) [] "a" = .error .typeError ∧
    ∃ r, search_text_in_transcript (fun _ _ => (0 : ℚ)) [[⟨0, "hello"⟩]] "a" = .ok r := by
  have h := search_zero_pages_typeerror (fun _ _ => (0 : ℚ)) "a"
  refine ⟨h.1, h.2 [[⟨0, "hello"⟩]] (by simp) ?_⟩
  intro p hp
  simp only [List.mem_singleton] at hp
  subst hp
  simp

/-- C5: for every transcript (non-empty, every page non-empty per the
matcher's precondition) and query, `search_text_in_transcript` returns the
candidate window with the strictly greatest similarity score among all
windows enumerated in page order and, within a page, in sliding-window
position order: the returned candidate's score strictly exceeds every
earlier-enumerated candidate's score (so among equal-scoring candidates the
first-encountered one is returned — a later candidate with an equal or lower
score never replaces the current best) and is at least every candidate's
score; the reported page number is the 0-based page index plus 1, the
reported start time is the window's first segment's start, and the reported
text is the window's newline-join. Stated for an arbitrary similarity oracle
`ratio` in place of the external `rapidfuzz.fuzz.ratio`. -/
theorem search_global_best (ratio : String → String → ℚ) (t : Transcript)
    (query : String) (hne : t ≠ []) (hp : ∀ p ∈ t, p ≠ []) :
    ∃ (i : Nat) (c : Nat × List Segment),
      (transcriptCandidates (numSegmentInText query) t)[i]? = some c ∧
      (∀ j, j < i → ∀ cj, (transcriptCandidates (numSegmentInText query) t)[j]? = some cj →
        ratio query (windowText cj.2) < ratio query (windowText c.2)) ∧
      (∀ c' ∈ transcriptCandidates (numSegmentInText query) t,
        ratio query (windowText c'.2) ≤ ratio query (windowText c.2)) ∧
      ∃ sg rest, c.2 = sg :: rest ∧
        search_text_in_transcript ratio t query
          = .ok (sg.start, c.1 + 1, ratio query (windowText c.2), windowText c.2) :=
  search_characterization ratio t query hne hp

/-- Witness for C5 on a one-page, two-segment transcript with a constant
similarity oracle. -/
theorem search_global_best_witness :
    ∃ (i : Nat) (c : Nat × List Segment) (sg : Segment) (rest : List Segment),
      (transcriptCandidates (numSegmentInText "b") [[⟨0, "a"⟩, ⟨5, "b"⟩]])[i]? = some c ∧
      c.2 = sg :: rest ∧
      search_text_in_transcript (fun _ _ => (0 : ℚ)) [[⟨0, "a"⟩, ⟨5, "b"⟩]] "b"
        = .ok (sg.start, c.1 + 1, (0 : ℚ), windowText c.2) := by
  obtain ⟨i, c, h1, _, _, sg, rest, h4, h5⟩ :=
    search_global_best (fun _ _ => (0 : ℚ)) [[⟨0, "a"⟩, ⟨5, "b"⟩]] "b" (by simp)
      (by intro p hp; simp only [List.mem_singleton] at hp; subst hp; simp)
  exact ⟨i, c, sg, rest, h1, h4, h5⟩

end FireflyVcut
